import Mathlib

set_option autoImplicit false
set_option linter.unusedVariables false

namespace FhirClient

/-!
Shallow embedding of the fhirclient repository.

Part A embeds the executable TypeScript of the frontend data layer
(src/data/patients.ts: the FHIR/UI conversion helpers and `validate`) and the
form submit handlers of PatientCreate.tsx / PatientEdit.tsx.

Part B models the planned caching server (local store, sync engine, read/write
router, trigger guard).  The repository contains only the design plan for that
server (the markdown plan document with the `syncPatients` pseudocode, the SQL
schema and the endpoint table); the files server/src/sync.ts,
server/src/routes/patients.ts and server/src/index.ts it describes were never
written.  Each definition of Part B says in its doc comment which plan step or
spec sentence it is modelled from.
-/

/-! ### JavaScript string primitives.

JS strings are modelled as Lean `String`; `s.split(' ')` and
`arr.join(' ')` are modelled at the character-list level. -/

/-- Embedding of the JS expression `s.split(' ')` on the character list of `s`:
split at every space, keeping empty segments (JS keeps them too). -/
def splitSpChars : List Char → List (List Char)
  | [] => [[]]
  | c :: rest =>
    match splitSpChars rest with
    | [] => [[c]]
    | t :: ts => if c = ' ' then [] :: t :: ts else (c :: t) :: ts

/-- Embedding of JS `s.split(' ')` as a `String` function. -/
def jsSplitSpace (s : String) : List String :=
  (splitSpChars s.data).map String.mk

/-- Embedding of JS `arr.join(' ')`. -/
def jsJoinSpace : List String → String
  | [] => ""
  | [t] => t
  | t :: t₂ :: ts => t ++ " " ++ jsJoinSpace (t₂ :: ts)

/-- JS truthiness of an optional string: `undefined` and the empty string are
falsy (the `!patient.field` checks in `validate`). -/
def jsFalsy (o : Option String) : Bool :=
  o.isNone || o == some ""

/-- JS regex `\d`: an ASCII decimal digit. -/
def isAsciiDigit (c : Char) : Bool :=
  '0' ≤ c && c ≤ '9'

/-- JS regex `\s`: the whitespace characters matched by JavaScript. -/
def jsWhitespaceChar (c : Char) : Bool :=
  c = ' ' || c = '\t' || c = '\n' || c.toNat = 11 || c.toNat = 12 || c = '\r' ||
  c.toNat = 0xA0 || c.toNat = 0x1680 ||
  (0x2000 ≤ c.toNat && c.toNat ≤ 0x200A) ||
  c.toNat = 0x2028 || c.toNat = 0x2029 || c.toNat = 0x202F ||
  c.toNat = 0x205F || c.toNat = 0x3000 || c.toNat = 0xFEFF

/-! ### FHIR resource types (src/data/patients.ts). -/

/-- Embedding of the TS interface `FhirHumanName`. -/
structure FhirHumanName where
  use : Option String
  family : Option String
  given : Option (List String)
  text : Option String
deriving Repr, DecidableEq

/-- Embedding of the TS interface `FhirContactPoint`. -/
structure FhirContactPoint where
  system : Option String
  value : Option String
  use : Option String
deriving Repr, DecidableEq

/-- Embedding of the TS interface `FhirPatientResource` (the constant
`resourceType` discriminator is omitted). -/
structure FhirPatientResource where
  id : Option String
  name : Option (List FhirHumanName)
  gender : Option String
  birthDate : Option String
  telecom : Option (List FhirContactPoint)
deriving Repr, DecidableEq

/-- Embedding of the flat UI `Patient` interface. -/
structure Patient where
  id : String
  name : String
  family : String
  given : String
  gender : String
  birthDate : String
  phone : String
deriving Repr, DecidableEq

/-- Embedding of `Partial<Omit<Patient, 'id'>>`, the argument type of
`patientToFhir` and `validate` (the form value record). -/
structure PartialPatient where
  name : Option String
  family : Option String
  given : Option String
  gender : Option String
  birthDate : Option String
  phone : Option String
deriving Repr, DecidableEq

/-- Embedding of `resource.name?.find((n) => n.use === 'official') ?? resource.name?.[0]`
inside `fhirToPatient`. -/
def findOfficialName (names : Option (List FhirHumanName)) : Option FhirHumanName :=
  match names with
  | none => none
  | some l =>
    match l.find? (fun n => n.use == some "official") with
    | some n => some n
    | none => l.head?

/-- Embedding of `fhirToPatient` (src/data/patients.ts). -/
def fhirToPatient (resource : FhirPatientResource) : Patient :=
  let officialName := findOfficialName resource.name
  let family := (officialName.bind (fun n => n.family)).getD ""
  let given := ((officialName.bind (fun n => n.given)).map jsJoinSpace).getD ""
  let joined := jsJoinSpace (([given, family]).filter (fun s => s != ""))
  let displayName := (officialName.bind (fun n => n.text)).getD
    (if joined = "" then "Unknown" else joined)
  let phone := ((resource.telecom.bind
      (fun ts => ts.find? (fun t => t.system == some "phone"))).bind
      (fun t => t.value)).getD ""
  { id := resource.id.getD ""
    name := displayName
    family := family
    given := given
    gender := resource.gender.getD ""
    birthDate := resource.birthDate.getD ""
    phone := phone }

/-- Embedding of `patientToFhir` (src/data/patients.ts). -/
def patientToFhir (patient : PartialPatient) : FhirPatientResource :=
  { id := none
    name :=
      if patient.family.isSome || patient.given.isSome then
        some [{ use := some "official"
                family := some (patient.family.getD "")
                given := some (match patient.given with
                  | some g =>
                    if g = "" then [] else (jsSplitSpace g).filter (fun s => s != "")
                  | none => [])
                text := none }]
      else none
    gender := patient.gender
    birthDate := patient.birthDate
    telecom := patient.phone.map (fun ph =>
      [{ system := some "phone", value := some ph, use := some "mobile" }]) }

/-! ### Validation (src/data/patients.ts `validate`). -/

/-- Embedding of one element of the `issues` array returned by `validate`. -/
structure ValidationIssue where
  message : String
  path : List String
deriving Repr, DecidableEq

/-- Embedding of the JS regex test `/^\d{4}-\d{2}-\d{2}$/.test(s)`. -/
def birthDateRegexTest (s : String) : Bool :=
  match s.data with
  | [a, b, c, d, e, f, g, h, i, j] =>
    isAsciiDigit a && isAsciiDigit b && isAsciiDigit c && isAsciiDigit d &&
    e = '-' && isAsciiDigit f && isAsciiDigit g && h = '-' &&
    isAsciiDigit i && isAsciiDigit j
  | _ => false

/-- Character class of the JS regex `[\d\s\-+()]`. -/
def isPhoneChar (c : Char) : Bool :=
  isAsciiDigit c || jsWhitespaceChar c || c = '-' || c = '+' || c = '(' || c = ')'

/-- Embedding of the JS regex test `/^[\d\s\-+()]+$/.test(s)`. -/
def phoneRegexTest (s : String) : Bool :=
  !s.data.isEmpty && s.data.all isPhoneChar

/-- Embedding of `validate` (src/data/patients.ts): the `issues` list it
returns, in source order. -/
def validate (patient : PartialPatient) : List ValidationIssue :=
  (if jsFalsy patient.family then
    [{ message := "Family name is required", path := ["family"] }] else []) ++
  (if jsFalsy patient.given then
    [{ message := "Given name is required", path := ["given"] }] else []) ++
  (if jsFalsy patient.gender then
    [{ message := "Gender is required", path := ["gender"] }]
   else if !(["male", "female", "other", "unknown"].contains (patient.gender.getD "")) then
    [{ message := "Gender must be \x22male\x22, \x22female\x22, \x22other\x22 or \x22unknown\x22",
       path := ["gender"] }]
   else []) ++
  (if jsFalsy patient.birthDate then
    [{ message := "Birth date is required", path := ["birthDate"] }]
   else if !birthDateRegexTest (patient.birthDate.getD "") then
    [{ message := "Birth date must be in YYYY-MM-DD format", path := ["birthDate"] }]
   else []) ++
  (if jsFalsy patient.phone then
    [{ message := "Phone number is required", path := ["phone"] }]
   else if !phoneRegexTest (patient.phone.getD "") then
    [{ message := "Phone number contains invalid characters", path := ["phone"] }]
   else [])

/-! ### Form submit handlers (PatientCreate.tsx, PatientEdit.tsx). -/

/-- Outcome of `handleFormSubmit` in PatientCreate.tsx: either the form is
rejected with per-field errors, or the create request (whose body is the
converted resource) is issued to the data layer and hence to the remote. -/
inductive SubmitAction where
  | rejected (errors : List (String × String))
  | createRequested (body : FhirPatientResource)
deriving Repr, DecidableEq

/-- Outcome of `handleFormSubmit` in PatientEdit.tsx: either rejected with
per-field errors, or `updateOne(patientId, formValues)` is invoked (which
contacts the remote). -/
inductive EditSubmitAction where
  | rejected (errors : List (String × String))
  | updateRequested (patientId : String) (updates : FhirPatientResource)
deriving Repr, DecidableEq

/-- Embedding of `handleFormSubmit` in PatientCreate.tsx: validate first,
reject when `issues.length > 0` (building the per-field error map), otherwise
call `createPatient(formValues)` whose request body is `patientToFhir`. -/
def handleFormSubmit (formValues : PartialPatient) : SubmitAction :=
  let issues := validate formValues
  if issues.length > 0 then
    .rejected (issues.map (fun i => (i.path.headD "", i.message)))
  else
    .createRequested (patientToFhir formValues)

/-- Embedding of `handleFormSubmit` in PatientEdit.tsx: validate first, reject
when `issues.length > 0`, otherwise call `updatePatient(patientId, formValues)`
whose update payload is `patientToFhir`. -/
def handleEditFormSubmit (patientId : String) (formValues : PartialPatient) :
    EditSubmitAction :=
  let issues := validate formValues
  if issues.length > 0 then
    .rejected (issues.map (fun i => (i.path.headD "", i.message)))
  else
    .updateRequested patientId (patientToFhir formValues)

/-- The remote create call issued by a create submit, if any. -/
def submitRemoteCall : SubmitAction → Option FhirPatientResource
  | .rejected _ => none
  | .createRequested body => some body

/-- The remote update call issued by an edit submit, if any. -/
def editSubmitRemoteCall : EditSubmitAction → Option (String × FhirPatientResource)
  | .rejected _ => none
  | .updateRequested pid body => some (pid, body)

/-! ### Part B: the planned caching server.

The files server/src/sync.ts, server/src/routes/patients.ts and
server/src/index.ts are not in the repository; only the plan document
describing them is.  The definitions below are modelled from that plan
(schema, endpoint table, `syncPatients` pseudocode, scheduler notes) and,
where the plan is silent, from the spec.  Timestamps are modelled as `Nat`. -/

/-- Errors surfaced by the remote system-of-record: a missing resource or a
failed call with an HTTP-style status and message (spec section 7 taxonomy). -/
inductive ApiError where
  | notFound
  | remote (status : Nat) (msg : String)
deriving Repr, DecidableEq

/-- Modelled from the plan schema (`patients` table): one cached row with the
flattened queryable columns, the full raw FHIR payload, the `last_updated`
timestamp from the remote metadata, and the local `synced_at` timestamp. -/
structure CachedRecord where
  id : String
  given : String
  family : String
  name : String
  gender : String
  birthDate : String
  phone : String
  fhirResource : FhirPatientResource
  lastUpdated : Option Nat
  syncedAt : Nat
deriving Repr, DecidableEq

/-- Modelled from the plan (`fhirToRow` in server/src/sync.ts, not in the
repository): derive the flattened columns from the full payload with the same
conversion the frontend uses, keeping the raw resource byte-for-byte.  The
`last_updated` value would come from `meta.lastUpdated`; the TS resource type
in the repository has no `meta` field, so it is passed in. -/
def fhirToRow (r : FhirPatientResource) (syncedAt : Nat) (lastUpdated : Option Nat) :
    CachedRecord :=
  let flat := fhirToPatient r
  { id := flat.id
    given := flat.given
    family := flat.family
    name := flat.name
    gender := flat.gender
    birthDate := flat.birthDate
    phone := flat.phone
    fhirResource := r
    lastUpdated := lastUpdated
    syncedAt := syncedAt }

/-- Modelled from the spec (Local Store `upsert`): insert or fully replace the
row keyed by identifier, never partial-patch.  This is the
`INSERT ... ON CONFLICT (id) DO UPDATE` of plan step 4. -/
def upsertPatient : List CachedRecord → CachedRecord → List CachedRecord
  | [], r => [r]
  | x :: xs, r => if x.id = r.id then r :: xs else x :: upsertPatient xs r

/-- Modelled from the spec (Local Store `get`): point lookup by exact
identifier; never contacts the remote. -/
def lookupPatient : List CachedRecord → String → Option CachedRecord
  | [], _ => none
  | x :: xs, pid => if x.id = pid then some x else lookupPatient xs pid

/-- Modelled from the plan (`DELETE FROM patients WHERE id=$1`): remove the row
with the given identifier; a no-op when absent. -/
def deletePatientRow : List CachedRecord → String → List CachedRecord
  | [], _ => []
  | x :: xs, pid =>
    if x.id = pid then deletePatientRow xs pid else x :: deletePatientRow xs pid

/-- Modelled from the plan schema: the cached record table plus the singleton
`sync_state.last_sync_time` watermark (NULL meaning never synced). -/
structure LocalStore where
  patients : List CachedRecord
  watermark : Option Nat
deriving Repr, DecidableEq

/-- Store-level upsert. -/
def LocalStore.upsert (st : LocalStore) (r : CachedRecord) : LocalStore :=
  { st with patients := upsertPatient st.patients r }

/-- Store-level point lookup. -/
def LocalStore.get (st : LocalStore) (pid : String) : Option CachedRecord :=
  lookupPatient st.patients pid

/-- Store-level row deletion. -/
def LocalStore.erase (st : LocalStore) (pid : String) : LocalStore :=
  { st with patients := deletePatientRow st.patients pid }

/-! ### Sync engine (plan section `Sync Logic`). -/

/-- Result record of `syncPatients` (plan step 6:
`Return { syncedCount, lastSyncTime }`). -/
structure SyncResult where
  syncedCount : Nat
  lastSyncTime : Option Nat
deriving Repr, DecidableEq

/-- One page of the paginated remote fetch: either its resources or a remote
error.  The sequence of pages models plan step 3 (follow the bundle `next`
links until exhausted). -/
abbrev SyncPage := Except ApiError (List FhirPatientResource)

/-- Plan step 4 for one page: upsert every resource of the page into the
patients table, row timestamps taken from the cycle clock. -/
def applyPage (st : LocalStore) (page : List FhirPatientResource) (now : Nat) :
    LocalStore :=
  page.foldl (fun s r => s.upsert (fhirToRow r now none)) st

/-- Plan step 3 and 4: follow the pages in order, upserting page by page;
stop at the first remote error (the remaining pages are never fetched).
Returns the number of records upserted, or the first error. -/
def fetchPages : List SyncPage → LocalStore → Nat → Except ApiError Nat × LocalStore
  | [], st, _ => (.ok 0, st)
  | .error e :: _, st, _ => (.error e, st)
  | .ok page :: rest, st, now =>
    let st' := applyPage st page now
    match fetchPages rest st' now with
    | (.ok n, st'') => (.ok (page.length + n), st'')
    | (.error e, st'') => (.error e, st'')

/-- Modelled from the plan pseudocode `syncPatients()` (server/src/sync.ts is
not in the repository).  `startTime` is the wall clock when the cycle begins,
before the first remote fetch; `endTime` is the wall clock when step 5 runs,
after all pages.  Steps 3 and 4 upsert page by page; only when every page
succeeded does step 5 run `UPDATE sync_state SET last_sync_time = NOW()` —
since step 5 executes after the last page, its `NOW()` is the completion time
`endTime`, and the plan never captures `startTime` anywhere.  On a mid-cycle
error the watermark is left untouched and the error is returned. -/
def syncPatients (startTime endTime : Nat) (pages : List SyncPage)
    (st : LocalStore) : Except ApiError SyncResult × LocalStore :=
  match fetchPages pages st startTime with
  | (.ok n, st') =>
    (.ok { syncedCount := n, lastSyncTime := some endTime },
     { st' with watermark := some endTime })
  | (.error e, st') => (.error e, st')

/-! ### Exclusivity guard and trigger paths (plan `Scheduler in index.ts`). -/

/-- The process-wide engine state: the `let isSyncing = false` guard of the
plan scheduler plus the store it protects. -/
structure EngineState where
  isSyncing : Bool
  store : LocalStore
deriving Repr, DecidableEq

/-- Modelled from the plan guard: atomically check-and-set `isSyncing`.
Returns whether the caller acquired the right to run a cycle. -/
def tryAcquire (es : EngineState) : Bool × EngineState :=
  if es.isSyncing then (false, es)
  else (true, { es with isSyncing := true })

instance {α β : Type} [DecidableEq α] [DecidableEq β] : DecidableEq (Except α β) :=
  fun x y =>
    match x, y with
    | .error a, .error b => decidable_of_iff (a = b) (by simp)
    | .error _, .ok _ => isFalse (fun h => Except.noConfusion h)
    | .ok _, .error _ => isFalse (fun h => Except.noConfusion h)
    | .ok a, .ok b => decidable_of_iff (a = b) (by simp)

/-- What one sync trigger did: skipped by the guard, or ran a full cycle with
the given outcome. -/
inductive TriggerOutcome where
  | skipped
  | ran (result : Except ApiError SyncResult)
deriving Repr, DecidableEq

/-- Modelled from the plan scheduler: a sync trigger checks the `isSyncing`
guard; if already running it is a no-op (nothing queued, no error), otherwise
it runs the cycle to completion and clears the guard (also on failure, so the
engine always returns to Idle). -/
def triggerSync (startTime endTime : Nat) (pages : List SyncPage)
    (es : EngineState) : TriggerOutcome × EngineState :=
  let acq := tryAcquire es
  if acq.1 then
    let done := syncPatients startTime endTime pages acq.2.store
    (.ran done.1, { isSyncing := false, store := done.2 })
  else (.skipped, acq.2)

/-- Fold `n` successive triggers through the engine state, collecting each
outcome. -/
def triggerFold : Nat → Nat → Nat → List SyncPage → EngineState →
    List TriggerOutcome × EngineState
  | 0, _, _, _, es => ([], es)
  | n + 1, stT, eT, pages, es =>
    let t := triggerSync stT eT pages es
    let rest := triggerFold n stT eT pages t.2
    (t.1 :: rest.1, rest.2)

/-- Scenario harness for the at-most-one-sync property: from an idle engine,
a first trigger acquires the guard and begins a cycle; `n` further triggers
arrive while that cycle is still running (the guard still held); then the
first cycle finishes its pages and releases the guard. -/
def rapidTriggers (n startTime endTime : Nat) (pages : List SyncPage)
    (st : LocalStore) : List TriggerOutcome × EngineState :=
  let acq := tryAcquire { isSyncing := false, store := st }
  if acq.1 then
    let folded := triggerFold n startTime endTime pages acq.2
    let done := syncPatients startTime endTime pages folded.2.store
    (TriggerOutcome.ran done.1 :: folded.1, { isSyncing := false, store := done.2 })
  else ([], acq.2)

/-- Number of triggers in a trace that actually ran a cycle. -/
def countRuns (outs : List TriggerOutcome) : Nat :=
  outs.countP (fun o => match o with | .ran _ => true | .skipped => false)

/-- Modelled from the plan stale-trigger (`syncPatients().catch(console.error)`)
and spec section 4.2 step 6: a fire-and-forget trigger runs the cycle but a
failure is only logged — the caller gets the new engine state and a log,
never an error. -/
def fireAndForgetSync (startTime endTime : Nat) (pages : List SyncPage)
    (es : EngineState) : EngineState × List ApiError :=
  let t := triggerSync startTime endTime pages es
  match t.1 with
  | .ran (.error e) => (t.2, [e])
  | _ => (t.2, [])

/-- Modelled from the plan (`POST /api/sync` returns `{syncedCount,
lastSyncTime}`) and spec section 7: an on-demand trigger surfaces the cycle
outcome — count and watermark on success, the error itself on failure.  The
plan does not say what a manual trigger answers while a sync is already
running; that branch reports zero records synced and the current watermark,
and is not relied on by any theorem. -/
def onDemandSync (startTime endTime : Nat) (pages : List SyncPage)
    (es : EngineState) : Except ApiError SyncResult × EngineState :=
  let t := triggerSync startTime endTime pages es
  match t.1 with
  | .ran r => (r, t.2)
  | .skipped =>
    (.ok { syncedCount := 0, lastSyncTime := es.store.watermark }, t.2)

/-! ### Read/write router (plan `Express API Endpoints` table, spec 4.3). -/

/-- Modelled from the plan endpoint table (`POST /Patient`: forward to FHIR,
on success upsert into DB, return the created resource) and the spec sentence
that on remote failure nothing is written locally and the failure is
propagated unchanged.  The remote call outcome is passed as an oracle. -/
def routerCreate (remote : Except ApiError FhirPatientResource) (now : Nat)
    (st : LocalStore) : Except ApiError FhirPatientResource × LocalStore :=
  match remote with
  | .error e => (.error e, st)
  | .ok created => (.ok created, st.upsert (fhirToRow created now none))

/-- Modelled from the plan endpoint table (`PUT /Patient/:id`: forward to FHIR,
on success upsert into DB, return the updated resource); same failure policy
as create. -/
def routerUpdate (pid : String) (remote : Except ApiError FhirPatientResource)
    (now : Nat) (st : LocalStore) : Except ApiError FhirPatientResource × LocalStore :=
  match remote with
  | .error e => (.error e, st)
  | .ok updated =>
    (.ok updated, st.upsert (fhirToRow updated now none))

/-- Modelled from the plan endpoint table (`DELETE /Patient/:id`: forward to
FHIR, on success delete the local row); on remote failure the local row is
left untouched and the error propagated. -/
def routerDelete (pid : String) (remote : Except ApiError Unit)
    (st : LocalStore) : Except ApiError Unit × LocalStore :=
  match remote with
  | .error e => (.error e, st)
  | .ok _ => (.ok (), st.erase pid)

/-- Modelled from the plan endpoint table (`GET /Patient/:id`: serve from DB,
fall back to FHIR on cache miss) and the spec sentence that on a miss the
router upserts a remotely found resource before returning and propagates
remote not-found.  The third component records whether the remote was
contacted. -/
def routerGetById (pid : String) (remote : Except ApiError FhirPatientResource)
    (now : Nat) (st : LocalStore) :
    Except ApiError FhirPatientResource × LocalStore × Bool :=
  match st.get pid with
  | some row => (.ok row.fhirResource, st, false)
  | none =>
    match remote with
    | .error e => (.error e, st, true)
    | .ok r => (.ok r, st.upsert (fhirToRow r now none), true)

/-! ### List-query field matching (plan `GET /Patient` param translation,
spec 4.1 field match semantics). -/

/-- The search parameters the list handler accepts, plus the identifier used
by point lookups. -/
inductive FilterField where
  | name
  | family
  | given
  | gender
  | birthdate
  | telecom
  | id
deriving Repr, DecidableEq

/-- ASCII lowercasing of a string, character by character (the case folding of
SQL ILIKE and of FHIR string search). -/
def lowerStr (s : String) : String :=
  String.mk (s.data.map Char.toLower)

/-- Whether `needle` is a prefix of `haystack`, on character lists. -/
def startsWith : List Char → List Char → Bool
  | [], _ => true
  | _ :: _, [] => false
  | a :: as, b :: bs => (a == b) && startsWith as bs

/-- Whether `needle` occurs as a contiguous run inside `haystack`. -/
def occursIn (needle : List Char) : List Char → Bool
  | [] => needle.isEmpty
  | c :: rest => startsWith needle (c :: rest) || occursIn needle rest

/-- Case-insensitive substring match: the SQL condition
`field ILIKE '%' || v || '%'`. -/
def ciContains (field v : String) : Bool :=
  occursIn (lowerStr v).data (lowerStr field).data

/-- Modelled from the spec (name-like fields use case-insensitive partial
match, enum/date/identifier fields use exact match) and the plan (filters are
translated to ILIKE or exact SQL conditions; trigram indexes on `name` and
`phone` back the ILIKE ones): the match semantics of each filterable field in
the local query path. -/
def fieldMatches (f : FilterField) (v : String) (row : CachedRecord) : Bool :=
  match f with
  | .name => ciContains row.name v
  | .family => ciContains row.family v
  | .given => ciContains row.given v
  | .gender => row.gender == v
  | .birthdate => row.birthDate == v
  | .telecom => ciContains row.phone v
  | .id => row.id == v

/-- Modelled from the spec: the remote search semantics that the local
semantics must mirror (name-like fields case-insensitive partial, enum, date
and identifier exact, contact value matched like the trigram-backed local
column), written out from the spec wording for comparison with
`fieldMatches`. -/
def remoteFieldMatches (f : FilterField) (v : String) (row : CachedRecord) : Bool :=
  match f with
  | .name => ciContains row.name v
  | .family => ciContains row.family v
  | .given => ciContains row.given v
  | .gender => row.gender == v
  | .birthdate => row.birthDate == v
  | .telecom => ciContains row.phone v
  | .id => row.id == v

/-- The rows of the store matching every filter of a query, in store order
(the WHERE clause of the list handler). -/
def queryRows (filters : List (FilterField × String)) (rows : List CachedRecord) :
    List CachedRecord :=
  rows.filter (fun row => filters.all (fun fv => fieldMatches fv.1 fv.2 row))

/-- The same query answered with the remote match semantics. -/
def remoteQueryRows (filters : List (FilterField × String))
    (rows : List CachedRecord) : List CachedRecord :=
  rows.filter (fun row => filters.all (fun fv => remoteFieldMatches fv.1 fv.2 row))

/-! ### Sample data used by concrete theorems and witnesses. -/

/-- A well-formed sample FHIR resource with the given identifier. -/
def sampleResource (pid : String) : FhirPatientResource :=
  { id := some pid
    name := some [{ use := some "official", family := some "Doe",
                    given := some ["Jan"], text := none }]
    gender := some "female"
    birthDate := some "1990-01-01"
    telecom := some [{ system := some "phone", value := some "555",
                       use := some "mobile" }] }

/-- The empty local store with a null watermark (never synced). -/
def sampleStoreEmpty : LocalStore := { patients := [], watermark := none }

/-- A cached row for identifier `a`. -/
def sampleRow : CachedRecord := fhirToRow (sampleResource "a") 5 none

/-- A store already holding the row for identifier `a`. -/
def sampleStoreA : LocalStore := { patients := [sampleRow], watermark := some 3 }

/-- The first-run sync scenario of the spec: three records over two pages. -/
def firstSyncPages : List SyncPage :=
  [Except.ok [sampleResource "a", sampleResource "b"],
   Except.ok [sampleResource "c"]]

/-- The first-run sync cycle executed on the empty store: the cycle starts at
time 10 (before the first remote fetch) and its step 5 runs at completion
time 20. -/
def firstSyncRun : Except ApiError SyncResult × LocalStore :=
  syncPatients 10 20 firstSyncPages sampleStoreEmpty

/-! ### Store lemmas. -/

theorem upsertPatient_idem (rows : List CachedRecord) (r : CachedRecord) :
    upsertPatient (upsertPatient rows r) r = upsertPatient rows r := by
  induction rows with
  | nil => simp [upsertPatient]
  | cons x xs ih =>
    by_cases h : x.id = r.id
    · simp [upsertPatient, h]
    · simp [upsertPatient, h, ih]

theorem lookupPatient_upsertPatient (rows : List CachedRecord) (r : CachedRecord)
    (pid : String) (h : r.id = pid) :
    lookupPatient (upsertPatient rows r) pid = some r := by
  induction rows with
  | nil => simp [upsertPatient, lookupPatient, h]
  | cons x xs ih =>
    by_cases hx : x.id = r.id
    · simp [upsertPatient, lookupPatient, hx, h]
    · have hx' : x.id ≠ pid := fun hc => hx (hc.trans h.symm)
      simp [upsertPatient, lookupPatient, hx, hx', ih]

theorem lookupPatient_deletePatientRow (rows : List CachedRecord) (pid : String) :
    lookupPatient (deletePatientRow rows pid) pid = none := by
  induction rows with
  | nil => simp [deletePatientRow, lookupPatient]
  | cons x xs ih =>
    by_cases h : x.id = pid
    · simp [deletePatientRow, h, ih]
    · simp [deletePatientRow, lookupPatient, h, ih]

theorem fhirToRow_id (r : FhirPatientResource) (now : Nat) (lu : Option Nat) :
    (fhirToRow r now lu).id = r.id.getD "" := rfl

theorem fhirToRow_fhirResource (r : FhirPatientResource) (now : Nat)
    (lu : Option Nat) : (fhirToRow r now lu).fhirResource = r := rfl

/-! ### Sync cycle lemmas. -/

theorem applyPage_watermark (page : List FhirPatientResource) (st : LocalStore)
    (now : Nat) : (applyPage st page now).watermark = st.watermark := by
  induction page generalizing st with
  | nil => rfl
  | cons r rs ih => exact ih (st.upsert (fhirToRow r now none))

theorem foldl_applyPage_watermark (good : List (List FhirPatientResource))
    (st : LocalStore) (now : Nat) :
    (good.foldl (fun s p => applyPage s p now) st).watermark = st.watermark := by
  induction good generalizing st with
  | nil => rfl
  | cons p ps ih => rw [List.foldl_cons, ih, applyPage_watermark]

theorem fetchPages_error (good : List (List FhirPatientResource)) (e : ApiError)
    (rest : List SyncPage) (st : LocalStore) (now : Nat) :
    fetchPages (good.map Except.ok ++ Except.error e :: rest) st now =
      (.error e, good.foldl (fun s p => applyPage s p now) st) := by
  induction good generalizing st with
  | nil => rfl
  | cons p ps ih => simp [fetchPages, ih]

/-! ### Guard lemmas. -/

theorem triggerSync_running (startTime endTime : Nat) (pages : List SyncPage)
    (es : EngineState) (h : es.isSyncing = true) :
    triggerSync startTime endTime pages es = (.skipped, es) := by
  simp [triggerSync, tryAcquire, h]

theorem triggerFold_running (n startTime endTime : Nat) (pages : List SyncPage)
    (es : EngineState) (h : es.isSyncing = true) :
    triggerFold n startTime endTime pages es =
      (List.replicate n .skipped, es) := by
  induction n with
  | zero => rfl
  | succ n ih =>
    simp [triggerFold, triggerSync_running startTime endTime pages es h, ih,
      List.replicate]

theorem countRuns_replicate_skipped (n : Nat) :
    countRuns (List.replicate n .skipped) = 0 := by
  induction n with
  | zero => rfl
  | succ n ih => simp only [List.replicate, countRuns, List.countP_cons] at ih ⊢; simp [ih]

/-! ### Claim theorems: sync engine and router failure policy. -/

/-- C5: upsert is idempotent — for every record and every store state, applying
`upsert(R)` twice in a row yields a final store state identical (every column
included) to applying it once. -/
theorem upsert_idempotent (st : LocalStore) (r : CachedRecord) :
    (st.upsert r).upsert r = st.upsert r := by
  simp [LocalStore.upsert, upsertPatient_idem]

/-- C2: every write routed through the façade calls the remote first; if the
remote call fails the local store is unchanged (hence unchanged for the
affected identifier) and the remote error is propagated unchanged, and the
only local write is the upsert or delete performed after the remote call
succeeded. -/
theorem router_write_remote_first (e : ApiError) (now : Nat) (st : LocalStore)
    (pid : String) (r : FhirPatientResource) :
    routerCreate (.error e) now st = (.error e, st) ∧
    routerUpdate pid (.error e) now st = (.error e, st) ∧
    routerDelete pid (.error e) st = (.error e, st) ∧
    (routerCreate (.ok r) now st).2 = st.upsert (fhirToRow r now none) ∧
    (routerUpdate pid (.ok r) now st).2 = st.upsert (fhirToRow r now none) ∧
    (routerDelete pid (.ok ()) st).2 = st.erase pid :=
  ⟨rfl, rfl, rfl, rfl, rfl, rfl⟩

/-- C3: at most one sync cycle is in flight — when `n` further triggers arrive
while a cycle is running, exactly one cycle executes (the trace contains one
`ran` outcome, computed by a single `syncPatients` on the original store), all
later triggers are no-ops (skipped, no state change, no queue, no error), and
the engine ends Idle with the single cycle's store. -/
theorem at_most_one_sync_in_flight (n startTime endTime : Nat)
    (pages : List SyncPage) (st : LocalStore) :
    (rapidTriggers n startTime endTime pages st).1 =
      TriggerOutcome.ran (syncPatients startTime endTime pages st).1 ::
        List.replicate n .skipped ∧
    countRuns (rapidTriggers n startTime endTime pages st).1 = 1 ∧
    (rapidTriggers n startTime endTime pages st).2 =
      { isSyncing := false, store := (syncPatients startTime endTime pages st).2 } := by
  have hfold := triggerFold_running n startTime endTime pages
    { isSyncing := true, store := st } rfl
  refine ⟨?_, ?_, ?_⟩ <;>
    simp [rapidTriggers, tryAcquire, hfold, countRuns, List.countP_cons,
      countRuns_replicate_skipped n]

/-- C4: on a remote error mid-cycle the remaining pages are not fetched (the
resulting store holds exactly the upserts of the pages before the error, which
are kept, not rolled back), the watermark keeps the value it had at cycle
start, the engine returns to Idle, a fire-and-forget trigger gets no error
(it is only logged), and an on-demand trigger receives the error as its
result. -/
theorem sync_midcycle_error (startTime endTime : Nat)
    (good : List (List FhirPatientResource)) (e : ApiError)
    (rest : List SyncPage) (st : LocalStore) :
    syncPatients startTime endTime (good.map Except.ok ++ Except.error e :: rest) st =
      (.error e, good.foldl (fun s p => applyPage s p startTime) st) ∧
    (good.foldl (fun s p => applyPage s p startTime) st).watermark = st.watermark ∧
    fireAndForgetSync startTime endTime (good.map Except.ok ++ Except.error e :: rest)
        { isSyncing := false, store := st } =
      ({ isSyncing := false,
         store := good.foldl (fun s p => applyPage s p startTime) st }, [e]) ∧
    onDemandSync startTime endTime (good.map Except.ok ++ Except.error e :: rest)
        { isSyncing := false, store := st } =
      (.error e,
       { isSyncing := false,
         store := good.foldl (fun s p => applyPage s p startTime) st }) := by
  have hfetch := fetchPages_error good e rest st startTime
  refine ⟨?_, foldl_applyPage_watermark good st startTime, ?_, ?_⟩ <;>
    simp [syncPatients, fireAndForgetSync, onDemandSync, triggerSync, tryAcquire,
      hfetch]

/-- C1 evidence: in the plan pseudocode, step 5 runs
`UPDATE sync_state SET last_sync_time = NOW()` after all pages, so a
successful first-run cycle that starts at time 10 and completes at time 20
leaves the watermark at the completion time 20, not at the start time 10 the
claim and the spec require; the three records of the two pages are stored and
the returned `lastSyncTime` is also the completion time. -/
theorem syncPatients_watermark_is_completion_time :
    firstSyncRun.2.watermark = some 20 ∧
    firstSyncRun.2.watermark ≠ some 10 ∧
    firstSyncRun.2.patients.length = 3 ∧
    firstSyncRun.1 = .ok { syncedCount := 3, lastSyncTime := some 20 } := by
  refine ⟨rfl, by decide, rfl, rfl⟩

/-! ### Claim theorems: point reads and write-then-read. -/

/-- C6: a point read is served from the local store when the row is present
(without contacting the remote); on a local miss the remote is queried, a
remotely found record is upserted before being returned — so that it is
present locally on the very next lookup — and a remote error, not-found
included, is propagated with no local row created. -/
theorem point_read_policy (pid : String) (now : Nat) :
    (∀ (st : LocalStore) (rm : Except ApiError FhirPatientResource)
        (row : CachedRecord), st.get pid = some row →
        routerGetById pid rm now st = (.ok row.fhirResource, st, false)) ∧
    (∀ (st : LocalStore) (r : FhirPatientResource),
        st.get pid = none → r.id = some pid →
        routerGetById pid (.ok r) now st =
          (.ok r, st.upsert (fhirToRow r now none), true) ∧
        (st.upsert (fhirToRow r now none)).get pid =
          some (fhirToRow r now none)) ∧
    (∀ (st : LocalStore) (e : ApiError), st.get pid = none →
        routerGetById pid (.error e) now st = (.error e, st, true)) := by
  refine ⟨?_, ?_, ?_⟩
  · intro st rm row h
    simp [routerGetById, h]
  · intro st r hmiss hid
    have hrow : (fhirToRow r now none).id = pid := by
      rw [fhirToRow_id, hid]
      rfl
    exact ⟨by simp [routerGetById, hmiss],
      lookupPatient_upsertPatient st.patients _ pid hrow⟩
  · intro st e h
    simp [routerGetById, h]

/-- C6 witness: a cache hit for `a` is answered locally without contacting the
remote; a miss for `a` on the empty store pulls the remote record, stores it
and returns it; a miss for `b` with the remote answering not-found propagates
not-found and writes nothing. -/
theorem point_read_policy_witness :
    routerGetById "a" (.error .notFound) 7 sampleStoreA =
      (.ok sampleRow.fhirResource, sampleStoreA, false) ∧
    (routerGetById "a" (.ok (sampleResource "a")) 7 sampleStoreEmpty =
      (.ok (sampleResource "a"),
       sampleStoreEmpty.upsert (fhirToRow (sampleResource "a") 7 none), true) ∧
     (sampleStoreEmpty.upsert (fhirToRow (sampleResource "a") 7 none)).get "a" =
       some (fhirToRow (sampleResource "a") 7 none)) ∧
    routerGetById "b" (.error .notFound) 7 sampleStoreA =
      (.error .notFound, sampleStoreA, true) :=
  ⟨(point_read_policy "a" 7).1 sampleStoreA (.error .notFound) sampleRow (by decide),
   (point_read_policy "a" 7).2.1 sampleStoreEmpty (sampleResource "a")
     (by decide) (by decide),
   (point_read_policy "b" 7).2.2 sampleStoreA .notFound (by decide)⟩

/-- C7: after a successful create, update or delete through the router, an
immediately following point read of the same identifier (no intervening
operation, no sync cycle) reflects the write: the created or updated resource
is returned straight from the local store, and after a delete the read misses
locally and propagates the not-found the now-deleted remote reports. -/
theorem write_then_read (st : LocalStore) (r : FhirPatientResource)
    (pid : String) (now now2 : Nat) (rm : Except ApiError FhirPatientResource)
    (hid : r.id = some pid) :
    routerGetById pid rm now2 (routerCreate (.ok r) now st).2 =
      (.ok r, (routerCreate (.ok r) now st).2, false) ∧
    routerGetById pid rm now2 (routerUpdate pid (.ok r) now st).2 =
      (.ok r, (routerUpdate pid (.ok r) now st).2, false) ∧
    routerGetById pid (.error .notFound) now2 (routerDelete pid (.ok ()) st).2 =
      (.error .notFound, (routerDelete pid (.ok ()) st).2, true) := by
  have hrow : (fhirToRow r now none).id = pid := by
    rw [fhirToRow_id, hid]
    rfl
  have hget : (st.upsert (fhirToRow r now none)).get pid =
      some (fhirToRow r now none) :=
    lookupPatient_upsertPatient st.patients _ pid hrow
  have hmiss : (st.erase pid).get pid = none :=
    lookupPatient_deletePatientRow st.patients pid
  refine ⟨?_, ?_, ?_⟩
  · simp [routerCreate, routerGetById, hget, fhirToRow_fhirResource]
  · simp [routerUpdate, routerGetById, hget, fhirToRow_fhirResource]
  · simp [routerDelete, routerGetById, hmiss]

/-- C7 witness: create, update and delete of identifier `a`, each followed by
an immediate point read. -/
theorem write_then_read_witness :
    routerGetById "a" (.error .notFound) 9
        (routerCreate (.ok (sampleResource "a")) 8 sampleStoreEmpty).2 =
      (.ok (sampleResource "a"),
       (routerCreate (.ok (sampleResource "a")) 8 sampleStoreEmpty).2, false) ∧
    routerGetById "a" (.error .notFound) 9
        (routerUpdate "a" (.ok (sampleResource "a")) 8 sampleStoreA).2 =
      (.ok (sampleResource "a"),
       (routerUpdate "a" (.ok (sampleResource "a")) 8 sampleStoreA).2, false) ∧
    routerGetById "a" (.error .notFound) 9
        (routerDelete "a" (.ok ()) sampleStoreA).2 =
      (.error .notFound, (routerDelete "a" (.ok ()) sampleStoreA).2, true) :=
  ⟨(write_then_read sampleStoreEmpty (sampleResource "a") "a" 8 9
      (.error .notFound) (by decide)).1,
   (write_then_read sampleStoreA (sampleResource "a") "a" 8 9
      (.error .notFound) (by decide)).2.1,
   (write_then_read sampleStoreA (sampleResource "a") "a" 8 9
      (.error .notFound) (by decide)).2.2⟩

/-! ### Claim theorems: query field-match semantics. -/

theorem startsWith_iff (n h : List Char) :
    startsWith n h = true ↔ ∃ t, h = n ++ t := by
  induction n generalizing h with
  | nil =>
    simp only [startsWith, true_iff]
    exact ⟨h, rfl⟩
  | cons a as ih =>
    cases h with
    | nil => simp [startsWith]
    | cons b bs =>
      constructor
      · intro hw
        rw [startsWith, Bool.and_eq_true, beq_iff_eq] at hw
        obtain ⟨t, ht⟩ := (ih bs).mp hw.2
        exact ⟨t, by simp [hw.1, ht]⟩
      · rintro ⟨t, ht⟩
        rw [List.cons_append, List.cons.injEq] at ht
        rw [startsWith, Bool.and_eq_true, beq_iff_eq]
        exact ⟨ht.1.symm, (ih bs).mpr ⟨t, ht.2⟩⟩

theorem occursIn_iff (n h : List Char) :
    occursIn n h = true ↔ ∃ s t, h = s ++ n ++ t := by
  induction h with
  | nil =>
    constructor
    · intro hw
      have : n = [] := by
        rwa [occursIn, List.isEmpty_iff] at hw
      exact ⟨[], [], by simp [this]⟩
    · rintro ⟨s, t, hst⟩
      have hs : s = [] ∧ n = [] ∧ t = [] := by
        rcases List.append_eq_nil.mp hst.symm with ⟨h1, h2⟩
        rcases List.append_eq_nil.mp h1 with ⟨h3, h4⟩
        exact ⟨h3, h4, h2⟩
      simp [occursIn, hs.2.1]
  | cons c rest ih =>
    constructor
    · intro hw
      rcases Bool.or_eq_true_iff.mp (by rwa [occursIn] at hw) with hpre | hrec
      · obtain ⟨t, ht⟩ := (startsWith_iff n (c :: rest)).mp hpre
        exact ⟨[], t, by simp [ht]⟩
      · obtain ⟨s, t, hst⟩ := ih.mp hrec
        exact ⟨c :: s, t, by simp [hst]⟩
    · rintro ⟨s, t, hst⟩
      rw [occursIn, Bool.or_eq_true_iff]
      cases s with
      | nil =>
        exact Or.inl ((startsWith_iff n (c :: rest)).mpr ⟨t, by simpa using hst⟩)
      | cons c' s' =>
        rw [List.cons_append, List.cons_append, List.cons.injEq] at hst
        exact Or.inr (ih.mpr ⟨s', t, hst.2⟩)

/-- C8: field match semantics of the query path — the name-like fields (given,
family, display name) match by case-insensitive substring, the enum, date and
identifier fields match exactly, the phone/contact field follows the
case-insensitive substring semantics (one of the two), and local and
remote-mirroring semantics agree filter-for-filter, so a query yields the same
matching set under either. -/
theorem field_match_semantics (f : FilterField) (v : String) (row : CachedRecord)
    (filters : List (FilterField × String)) (rows : List CachedRecord) :
    fieldMatches f v row = remoteFieldMatches f v row ∧
    queryRows filters rows = remoteQueryRows filters rows ∧
    (fieldMatches .given v row = true ↔
      ∃ s t, (lowerStr row.given).data = s ++ (lowerStr v).data ++ t) ∧
    (fieldMatches .family v row = true ↔
      ∃ s t, (lowerStr row.family).data = s ++ (lowerStr v).data ++ t) ∧
    (fieldMatches .name v row = true ↔
      ∃ s t, (lowerStr row.name).data = s ++ (lowerStr v).data ++ t) ∧
    (fieldMatches .gender v row = true ↔ row.gender = v) ∧
    (fieldMatches .birthdate v row = true ↔ row.birthDate = v) ∧
    (fieldMatches .id v row = true ↔ row.id = v) ∧
    (fieldMatches .telecom v row = true ↔
      ∃ s t, (lowerStr row.phone).data = s ++ (lowerStr v).data ++ t) := by
  refine ⟨by cases f <;> rfl, rfl, ?_, ?_, ?_, ?_, ?_, ?_, ?_⟩ <;>
    simp [fieldMatches, ciContains, occursIn_iff, beq_iff_eq]

/-! ### Claim theorems: validation before any remote call. -/

/-- The field-constraint violations of the claim, one per `validate` check. -/
inductive FieldViolation where
  | missingFamily
  | missingGiven
  | missingGender
  | missingBirthDate
  | missingPhone
  | invalidGender
  | invalidBirthDate
  | invalidPhone
deriving Repr, DecidableEq

/-- The form field a violation is about. -/
def violationField : FieldViolation → String
  | .missingFamily => "family"
  | .missingGiven => "given"
  | .missingGender => "gender"
  | .invalidGender => "gender"
  | .missingBirthDate => "birthDate"
  | .invalidBirthDate => "birthDate"
  | .missingPhone => "phone"
  | .invalidPhone => "phone"

/-- Whether a payload exhibits a given field-constraint violation: a missing
(absent or empty) required field, a gender outside the four allowed values, a
birth date not of the form YYYY-MM-DD, or a phone with a character outside
digits, whitespace, `-`, `+`, `(`, `)`. -/
def hasViolation (p : PartialPatient) : FieldViolation → Bool
  | .missingFamily => jsFalsy p.family
  | .missingGiven => jsFalsy p.given
  | .missingGender => jsFalsy p.gender
  | .missingBirthDate => jsFalsy p.birthDate
  | .missingPhone => jsFalsy p.phone
  | .invalidGender =>
    !jsFalsy p.gender &&
      !(["male", "female", "other", "unknown"].contains (p.gender.getD ""))
  | .invalidBirthDate =>
    !jsFalsy p.birthDate && !birthDateRegexTest (p.birthDate.getD "")
  | .invalidPhone =>
    !jsFalsy p.phone && (p.phone.getD "").data.any (fun c => !isPhoneChar c)

theorem validate_flags_violation (p : PartialPatient) (v : FieldViolation)
    (h : hasViolation p v = true) :
    ∃ i ∈ validate p, i.path = [violationField v] := by
  cases v <;>
    simp only [hasViolation, Bool.and_eq_true, Bool.not_eq_true'] at h
  case missingFamily =>
    exact ⟨{ message := "Family name is required", path := ["family"] },
      by simp [validate, h], rfl⟩
  case missingGiven =>
    exact ⟨{ message := "Given name is required", path := ["given"] },
      by simp [validate, h], rfl⟩
  case missingGender =>
    exact ⟨{ message := "Gender is required", path := ["gender"] },
      by simp [validate, h], rfl⟩
  case missingBirthDate =>
    exact ⟨{ message := "Birth date is required", path := ["birthDate"] },
      by simp [validate, h], rfl⟩
  case missingPhone =>
    exact ⟨{ message := "Phone number is required", path := ["phone"] },
      by simp [validate, h], rfl⟩
  case invalidGender =>
    have h2 : ¬p.gender.getD "" = "male" ∧ ¬p.gender.getD "" = "female" ∧
        ¬p.gender.getD "" = "other" ∧ ¬p.gender.getD "" = "unknown" := by
      simpa using h.2
    exact ⟨{ message := "Gender must be \x22male\x22, \x22female\x22, \x22other\x22 or \x22unknown\x22",
             path := ["gender"] },
      by simp [validate, h.1, h2.1, h2.2.1, h2.2.2.1, h2.2.2.2], rfl⟩
  case invalidBirthDate =>
    exact ⟨{ message := "Birth date must be in YYYY-MM-DD format", path := ["birthDate"] },
      by simp [validate, h.1, h.2], rfl⟩
  case invalidPhone =>
    have hreg : phoneRegexTest (p.phone.getD "") = false := by
      rcases List.any_eq_true.mp h.2 with ⟨c, hc, hcbad⟩
      simp only [phoneRegexTest, Bool.and_eq_false_iff]
      right
      exact List.all_eq_false.mpr ⟨c, hc, by simpa using hcbad⟩
    exact ⟨{ message := "Phone number contains invalid characters", path := ["phone"] },
      by simp [validate, h.1, hreg], rfl⟩

/-- C9: a payload violating any field constraint is rejected by `validate`
with an issue naming the offending field, and the submit handlers of the
create and edit forms then return before the data layer is invoked, so no
create or update request reaches the remote. -/
theorem validate_rejects_before_remote (p : PartialPatient) (v : FieldViolation)
    (h : hasViolation p v = true) :
    (∃ i ∈ validate p, i.path = [violationField v]) ∧
    submitRemoteCall (handleFormSubmit p) = none ∧
    (∀ pid, editSubmitRemoteCall (handleEditFormSubmit pid p) = none) := by
  have hmem := validate_flags_violation p v h
  have hne : validate p ≠ [] := by
    rintro hnil
    obtain ⟨i, hi, -⟩ := hmem
    rw [hnil] at hi
    cases hi
  have hlen : 0 < (validate p).length := List.length_pos.mpr hne
  refine ⟨hmem, ?_, fun pid => ?_⟩
  · rw [handleFormSubmit]
    simp only [if_pos hlen]
    rfl
  · rw [handleEditFormSubmit]
    simp only [if_pos hlen]
    rfl

/-- A form payload with a gender outside the allowed enum. -/
def sampleInvalidForm : PartialPatient :=
  { name := none, family := some "Doe", given := some "Jan",
    gender := some "robot", birthDate := some "1990-01-01",
    phone := some "555" }

/-- C9 witness: a payload with gender `robot` violates the gender enum, and
neither the create nor the edit submit handler issues a remote call for it. -/
theorem validate_rejects_before_remote_witness :
    hasViolation sampleInvalidForm .invalidGender = true ∧
    submitRemoteCall (handleFormSubmit sampleInvalidForm) = none ∧
    editSubmitRemoteCall (handleEditFormSubmit "p1" sampleInvalidForm) = none :=
  ⟨by decide,
   (validate_rejects_before_remote sampleInvalidForm .invalidGender (by decide)).2.1,
   (validate_rejects_before_remote sampleInvalidForm .invalidGender (by decide)).2.2 "p1"⟩

/-! ### Claim theorems: UI/FHIR conversion round trip. -/

/-- Proof-side companion of `jsJoinSpace` on character lists. -/
def joinSpChars : List (List Char) → List Char
  | [] => []
  | [t] => t
  | t :: t₂ :: ts => t ++ ' ' :: joinSpChars (t₂ :: ts)

theorem string_mk_data (s : String) : String.mk s.data = s := rfl

theorem splitSpChars_ne_nil (s : List Char) : splitSpChars s ≠ [] := by
  induction s with
  | nil => simp [splitSpChars]
  | cons c rest ih =>
    simp only [splitSpChars]
    cases hm : splitSpChars rest with
    | nil => simp
    | cons t ts => dsimp only; split <;> simp

theorem splitSpChars_no_space (t : List Char) (h : ∀ c ∈ t, c ≠ ' ') :
    splitSpChars t = [t] := by
  induction t with
  | nil => rfl
  | cons c cs ih =>
    have hc : c ≠ ' ' := h c (by simp)
    have ih' := ih (fun x hx => h x (by simp [hx]))
    simp [splitSpChars, ih', hc]

theorem splitSpChars_token_append (t : List Char) (h : ∀ c ∈ t, c ≠ ' ')
    (s : List Char) : splitSpChars (t ++ ' ' :: s) = t :: splitSpChars s := by
  induction t with
  | nil =>
    simp only [List.nil_append, splitSpChars]
    cases hm : splitSpChars s with
    | nil => exact absurd hm (splitSpChars_ne_nil s)
    | cons u us => simp
  | cons c cs ih =>
    have hc : c ≠ ' ' := h c (by simp)
    have ih' := ih (fun x hx => h x (by simp [hx]))
    simp [splitSpChars, ih', hc]

theorem splitSpChars_joinSpChars (ls : List (List Char)) (hne : ls ≠ [])
    (h : ∀ tk ∈ ls, ∀ c ∈ tk, c ≠ ' ') : splitSpChars (joinSpChars ls) = ls := by
  induction ls with
  | nil => cases hne rfl
  | cons t rest ih =>
    cases rest with
    | nil => exact splitSpChars_no_space t (h t (by simp))
    | cons t₂ ts =>
      have hstep : joinSpChars (t :: t₂ :: ts) = t ++ ' ' :: joinSpChars (t₂ :: ts) := rfl
      rw [hstep, splitSpChars_token_append t (h t (by simp)),
        ih (by simp) (fun tk htk => h tk (by simp [htk]))]

theorem jsJoinSpace_data (toks : List String) :
    (jsJoinSpace toks).data = joinSpChars (toks.map String.data) := by
  induction toks with
  | nil => rfl
  | cons t rest ih =>
    cases rest with
    | nil => rfl
    | cons t₂ ts =>
      show (t ++ " " ++ jsJoinSpace (t₂ :: ts)).data = _
      rw [String.data_append, String.data_append, ih]
      simp [joinSpChars]

theorem map_mk_data (l : List String) : l.map (String.mk ∘ String.data) = l := by
  induction l with
  | nil => rfl
  | cons a as ih => simp [Function.comp, string_mk_data, ih]

theorem jsSplit_join (toks : List String)
    (hsp : ∀ t ∈ toks, ∀ c ∈ t.data, c ≠ ' ') (hne : toks ≠ []) :
    jsSplitSpace (jsJoinSpace toks) = toks := by
  unfold jsSplitSpace
  rw [jsJoinSpace_data,
    splitSpChars_joinSpChars (toks.map String.data) (by simpa using hne)
      (by rintro tk htk c hc
          obtain ⟨u, hu, rfl⟩ := List.mem_map.mp htk
          exact hsp u hu c hc)]
  rw [List.map_map]
  exact map_mk_data toks

/-- The `Omit<Patient, 'id' | 'name'>` payload `createOne` passes to
`patientToFhir` for a flat patient record. -/
def patientCreatePayload (p : Patient) : PartialPatient :=
  { name := none, family := some p.family, given := some p.given,
    gender := some p.gender, birthDate := some p.birthDate,
    phone := some p.phone }

/-- C10: converting a flat patient to FHIR with `patientToFhir` and back with
`fhirToPatient` recovers family, given, gender, birthDate and phone, whenever
the given field is the space-join of non-empty space-free tokens (no leading,
trailing or repeated spaces) and the other four fields are non-empty. -/
theorem patient_fhir_roundtrip (p : Patient) (toks : List String)
    (hgiven : p.given = jsJoinSpace toks)
    (htoks : ∀ t ∈ toks, t ≠ "" ∧ ∀ c ∈ t.data, c ≠ ' ')
    (hfam : p.family ≠ "") (hgen : p.gender ≠ "") (hbd : p.birthDate ≠ "")
    (hph : p.phone ≠ "") :
    (fhirToPatient (patientToFhir (patientCreatePayload p))).family = p.family ∧
    (fhirToPatient (patientToFhir (patientCreatePayload p))).given = p.given ∧
    (fhirToPatient (patientToFhir (patientCreatePayload p))).gender = p.gender ∧
    (fhirToPatient (patientToFhir (patientCreatePayload p))).birthDate = p.birthDate ∧
    (fhirToPatient (patientToFhir (patientCreatePayload p))).phone = p.phone := by
  have hgl : jsJoinSpace
      (if p.given = "" then []
       else (jsSplitSpace p.given).filter (fun s => s != "")) = p.given := by
    rcases toks with _ | ⟨t, ts⟩
    · simp [hgiven, jsJoinSpace]
    · have hsp : ∀ t' ∈ t :: ts, ∀ c ∈ t'.data, c ≠ ' ' :=
        fun t' h' => (htoks t' h').2
      have hne0 : ∀ t' ∈ t :: ts, t' ≠ "" := fun t' h' => (htoks t' h').1
      have hsj : jsSplitSpace (jsJoinSpace (t :: ts)) = t :: ts :=
        jsSplit_join _ hsp (by simp)
      have hnn : jsJoinSpace (t :: ts) ≠ "" := by
        intro hc
        have hdata := congrArg String.data hc
        rw [jsJoinSpace_data] at hdata
        cases ts with
        | nil =>
          have ht0 : t = "" := by
            have : t.data = [] := by simpa [joinSpChars] using hdata
            have := congrArg String.mk this
            simpa [string_mk_data] using this
          exact hne0 t (by simp) ht0
        | cons t₂ ts' => simp [joinSpChars] at hdata
      rw [hgiven, if_neg hnn, hsj,
        List.filter_eq_self.mpr (fun a ha => bne_iff_ne.mpr (hne0 a ha))]
  refine ⟨?_, ?_, ?_, ?_, ?_⟩ <;>
    simp [patientCreatePayload, patientToFhir, fhirToPatient, findOfficialName,
      List.find?, hgl]

/-- A flat patient whose given name is the space-join of two tokens. -/
def sampleFlatPatient : Patient :=
  { id := "", name := "Jan Q Doe", family := "Doe", given := "Jan Q",
    gender := "female", birthDate := "1990-01-01", phone := "555-1234" }

/-- C10 witness: the round trip at a concrete flat patient. -/
theorem patient_fhir_roundtrip_witness :
    sampleFlatPatient.given = jsJoinSpace ["Jan", "Q"] ∧
    (fhirToPatient (patientToFhir (patientCreatePayload sampleFlatPatient))).family =
      sampleFlatPatient.family ∧
    (fhirToPatient (patientToFhir (patientCreatePayload sampleFlatPatient))).given =
      sampleFlatPatient.given ∧
    (fhirToPatient (patientToFhir (patientCreatePayload sampleFlatPatient))).gender =
      sampleFlatPatient.gender ∧
    (fhirToPatient (patientToFhir (patientCreatePayload sampleFlatPatient))).birthDate =
      sampleFlatPatient.birthDate ∧
    (fhirToPatient (patientToFhir (patientCreatePayload sampleFlatPatient))).phone =
      sampleFlatPatient.phone := by
  have h := patient_fhir_roundtrip sampleFlatPatient ["Jan", "Q"] (by decide)
    (by decide) (by decide) (by decide) (by decide) (by decide)
  exact ⟨by decide, h.1, h.2.1, h.2.2.1, h.2.2.2.1, h.2.2.2.2⟩

end FhirClient
